import Mathlib

/-!
# Verification of the cibyl Hierarchical Query & Aggregation Engine

Shallow embedding, in Lean 4, of the parts of the `cibyl` repository that the
specification's claims are about:

* `cibyl/sources/zuul/apis/rest.py` — the Zuul REST-API façade
  (`ZuulSession`, `ZuulBuildRESTClient`, `ZuulVariantRESTClient`,
  `ZuulJobRESTClient`, `ZuulPipelineRESTClient`, `ZuulProjectRESTClient`,
  `ZuulTenantRESTClient`, `ZuulRESTClient`);
* `cibyl/sources/zuul/queries/composition/hierarchy.py` — the
  hierarchy-aware query handler (`HierarchyQuery.with_jobs_query`);
* `cibyl/outputs/cli/ci/systems/zuul/colored.py` and
  `cibyl/outputs/cli/ci/systems/base/colored.py` — the colored printers;
* `cibyl/sources/source.py` — `Source.get_source_method`.

Python dictionaries are modelled as association lists with first-occurrence
lookup and in-place replacement on update, which matches CPython's
insertion-ordered `dict` semantics.  Recursive walks that the source performs
without a termination guard are modelled with an explicit fuel parameter: the
fuel-indexed function returns `none` exactly when the walk does not finish
within the given number of steps, so "does not terminate" becomes
"`none` for every fuel".
-/

set_option autoImplicit false

namespace Cibyl

/-! ## Python `dict` model

`Dict` models a Python `dict` with string keys: an association list whose
lookup returns the first (and, for lists produced by `dict` operations, only)
binding of a key.  `dictSet` is `d[k] = v` (replace in place, else append);
`dictUpdate` is `base.update(upd)` (every binding of `upd` written into
`base`, later bindings winning). -/

abbrev Dict (V : Type) : Type := List (String × V)

/-- `d[k] = v` on a Python dict: replace the first binding of `k` in place,
or append the pair at the end when `k` is absent. -/
def dictSet {V : Type} (d : Dict V) (k : String) (v : V) : Dict V :=
  match d with
  | [] => [(k, v)]
  | (k', v') :: rest =>
      if k' = k then (k, v) :: rest else (k', v') :: dictSet rest k v

/-- `base.update(upd)` on Python dicts: write every binding of `upd` into
`base`, in order. -/
def dictUpdate {V : Type} (base upd : Dict V) : Dict V :=
  upd.foldl (fun acc kv => dictSet acc kv.1 kv.2) base

/-- `d.get(k)` / `d[k]` on a Python dict: first binding of `k`, if any. -/
def dictLookup {V : Type} (d : Dict V) (k : String) : Option V :=
  match d with
  | [] => none
  | (k', v') :: rest => if k' = k then some v' else dictLookup rest k

theorem dictLookup_dictSet {V : Type} (d : Dict V) (k k' : String) (v : V) :
    dictLookup (dictSet d k v) k' = if k = k' then some v else dictLookup d k' := by
  induction d with
  | nil =>
      by_cases h : k = k' <;> simp [dictSet, dictLookup, h]
  | cons hd tl ih =>
      obtain ⟨k0, v0⟩ := hd
      by_cases h0 : k0 = k
      · subst h0
        by_cases h1 : k0 = k' <;> simp [dictSet, dictLookup, h1]
      · by_cases h1 : k0 = k'
        · subst h1
          have hk : ¬k = k0 := fun h => h0 h.symm
          simp [dictSet, dictLookup, h0, hk]
        · simp [dictSet, dictLookup, h0, h1, ih]

theorem dictLookup_dictUpdate {V : Type} (a b : Dict V) (k : String) :
    dictLookup (dictUpdate a b) k =
      (dictLookup (dictUpdate [] b) k).orElse (fun _ => dictLookup a k) := by
  induction b generalizing a with
  | nil => simp [dictUpdate, dictLookup]
  | cons hd tl ih =>
      obtain ⟨k0, v0⟩ := hd
      show dictLookup (dictUpdate (dictSet a k0 v0) tl) k = _
      rw [ih (dictSet a k0 v0)]
      have hrhs : dictLookup (dictUpdate [] ((k0, v0) :: tl)) k =
          (dictLookup (dictUpdate [] tl) k).orElse
            (fun _ => dictLookup (dictSet [] k0 v0) k) := by
        show dictLookup (dictUpdate (dictSet [] k0 v0) tl) k = _
        rw [ih (dictSet [] k0 v0)]
      rw [hrhs]
      rcases hfound : dictLookup (dictUpdate [] tl) k with _ | w
      · by_cases h2 : k0 = k <;>
          simp [Option.orElse, hfound, dictLookup_dictSet, dictSet, dictLookup, h2]
      · simp [Option.orElse, hfound]

/-! ## Variant variable inheritance (`ZuulVariantRESTClient.variables`)

Source (`cibyl/sources/zuul/apis/rest.py`, lines 194–222):

```
result = {}
result.update(self.raw['variables'])          # get_own_variables
if recursive and self.parent:                 # get_parent_variables
    parent = ZuulJobRESTClient(session, tenant, {'name': self.parent})
    for variant in parent.variants():
        result.update(variant.variables(recursive))
return result
```

A `Variant` carries the fields the walk touches: the variant's job name
(`raw['name']`), its parent job name (`raw['parent']`, Python-falsy empty
modelled as `none`) and its `raw['variables']` mapping.  The remote host is
modelled by `JobEnv`, mapping a job name to the variant list that
`GET tenant/{tenant}/job/{name}` (i.e. `ZuulJobRESTClient.variants`) returns
for it; a name the host does not know yields the empty list.  The source
recursion has no termination guard, so it is embedded with a fuel parameter:
`none` means the walk did not finish within `fuel` nested parent steps. -/

structure Variant where
  name : String
  parent : Option String
  /-- The variant's `raw['variables']` mapping.  (The source attribute is
  called `variables`; that word is reserved in Lean 4, hence `vars`.) -/
  vars : Dict Nat
  deriving DecidableEq, Repr

/-- Host model: job name ↦ variants answered by `tenant/{t}/job/{name}`. -/
abbrev JobEnv : Type := List (String × List Variant)

/-- Variants the host returns for job `j` (empty when `j` is unknown). -/
def lookupJob (env : JobEnv) (j : String) : List Variant :=
  match env.find? (fun e => e.1 = j) with
  | none => []
  | some e => e.2

/-- `ZuulVariantRESTClient.variables(recursive)` with explicit fuel.
Mirrors the source: `result = {}`, then `result.update(own variables)`
(`get_own_variables`), then — only in recursive mode and when a parent is
set — for each variant of the parent job,
`result.update(variant.variables(recursive))` (`get_parent_variables`). -/
def variablesRec (env : JobEnv) : Nat → Bool → Variant → Option (Dict Nat)
  | 0, _, _ => none
  | Nat.succ f, recursive, v =>
      let own := dictUpdate [] v.vars
      if recursive then
        match v.parent with
        | none => some own
        | some p =>
            (lookupJob env p).foldl
              (fun acc pv =>
                acc.bind (fun d => (variablesRec env f true pv).map (dictUpdate d)))
              (some own)
      else
        some own

/-- The `for variant in parent.variants(): result.update(...)` loop of
`variables`, split out for reasoning: fold the recursive variable maps of
`vs` (computed at `fuel`) into `acc`, `none` as soon as one walk fails. -/
def variablesFold (env : JobEnv) (fuel : Nat) (vs : List Variant)
    (acc : Option (Dict Nat)) : Option (Dict Nat) :=
  vs.foldl
    (fun acc pv =>
      acc.bind (fun d => (variablesRec env fuel true pv).map (dictUpdate d)))
    acc

theorem variablesRec_succ_parent (env : JobEnv) (f : Nat) (v : Variant)
    (p : String) (h : v.parent = some p) :
    variablesRec env (Nat.succ f) true v =
      variablesFold env f (lookupJob env p) (some (dictUpdate [] v.vars)) := by
  simp [variablesRec, variablesFold, h]

theorem variablesRec_succ_noParent (env : JobEnv) (f : Nat) (v : Variant)
    (h : v.parent = none) :
    variablesRec env (Nat.succ f) true v = some (dictUpdate [] v.vars) := by
  simp [variablesRec, h]

theorem variablesRec_succ_nonrecursive (env : JobEnv) (f : Nat) (v : Variant) :
    variablesRec env (Nat.succ f) false v = some (dictUpdate [] v.vars) := by
  simp [variablesRec]

theorem variablesFold_cons (env : JobEnv) (fuel : Nat) (pv : Variant)
    (rest : List Variant) (acc : Option (Dict Nat)) :
    variablesFold env fuel (pv :: rest) acc =
      variablesFold env fuel rest
        (acc.bind (fun d => (variablesRec env fuel true pv).map (dictUpdate d))) := rfl

theorem variablesFold_none (env : JobEnv) (fuel : Nat) (vs : List Variant) :
    variablesFold env fuel vs none = none := by
  induction vs with
  | nil => rfl
  | cons pv rest ih => rw [variablesFold_cons]; simpa using ih

/-- The loop's accumulator only influences keys the loop itself never
writes: success is independent of the accumulator. -/
theorem variablesFold_isSome_congr (env : JobEnv) (fuel : Nat) :
    ∀ (vs : List Variant) (a a' : Dict Nat),
      (variablesFold env fuel vs (some a)).isSome =
        (variablesFold env fuel vs (some a')).isSome := by
  intro vs
  induction vs with
  | nil => intro a a'; rfl
  | cons pv rest ih =>
      intro a a'
      rw [variablesFold_cons, variablesFold_cons]
      cases hr : variablesRec env fuel true pv with
      | none => simp [hr]
      | some rr => simpa [hr] using ih (dictUpdate a rr) (dictUpdate a' rr)

/-- Loop result against an accumulator `acc`, explained by the loop result
against the empty accumulator: a key written by the loop body keeps the
loop's value, all other keys fall back to `acc`. -/
theorem variablesFold_lookup (env : JobEnv) (fuel : Nat) :
    ∀ (vs : List Variant) (acc d : Dict Nat),
      variablesFold env fuel vs (some acc) = some d →
      ∃ d0, variablesFold env fuel vs (some []) = some d0 ∧
        ∀ k, dictLookup d k =
          (dictLookup d0 k).orElse (fun _ => dictLookup acc k) := by
  intro vs
  induction vs with
  | nil =>
      intro acc d h
      refine ⟨[], rfl, ?_⟩
      cases h
      intro k
      simp [dictLookup, Option.orElse]
  | cons pv rest ih =>
      intro acc d h
      rw [variablesFold_cons] at h
      cases hr : variablesRec env fuel true pv with
      | none =>
          rw [hr] at h
          simp only [Option.some_bind, Option.map_none'] at h
          rw [variablesFold_none] at h
          cases h
      | some rr =>
          rw [hr] at h
          simp only [Option.some_bind, Option.map_some'] at h
          obtain ⟨d0, h0, hlk⟩ := ih (dictUpdate acc rr) d h
          have hsome : (variablesFold env fuel rest (some (dictUpdate [] rr))).isSome := by
            rw [variablesFold_isSome_congr env fuel rest (dictUpdate [] rr) []]
            simp [h0]
          obtain ⟨d1, h1⟩ := Option.isSome_iff_exists.mp hsome
          obtain ⟨d0', h0', hlk1⟩ := ih (dictUpdate [] rr) d1 h1
          rw [h0] at h0'
          cases h0'
          refine ⟨d1, ?_, ?_⟩
          · rw [variablesFold_cons, hr]
            simpa using h1
          · intro k
            rw [hlk k, hlk1 k, dictLookup_dictUpdate acc rr k,
              dictLookup_dictUpdate [] rr k]
            rcases dictLookup d0 k with _ | w0 <;>
              rcases dictLookup (dictUpdate [] rr) k with _ | w1 <;>
                simp [Option.orElse]

/-! ### A concrete inheritance chain `A → B → C`

`C` defines `{x: 1}`, `B` defines `{x: 2, y: 3}` with parent `C`, `A`
defines `{y: 4}` with parent `B`; each job has exactly one variant. -/

def variantC : Variant := { name := "C", parent := none, vars := [("x", 1)] }

def variantB : Variant := { name := "B", parent := some "C", vars := [("x", 2), ("y", 3)] }

def variantA : Variant := { name := "A", parent := some "B", vars := [("y", 4)] }

def chainEnv : JobEnv := [("A", [variantA]), ("B", [variantB]), ("C", [variantC])]

/-! ### Termination of the parent walk

The source recursion has no cycle guard.  Acyclicity of the name-resolved
parent graph is expressed by a ranking function on job names: every variant
stored for job `j` may only name a parent of strictly smaller rank. -/

/-- `env` is ranked by `r`: checkable acyclicity of the parent references. -/
def rankedEnvB (env : JobEnv) (r : String → Nat) : Bool :=
  env.all (fun e =>
    e.2.all (fun v =>
      match v.parent with
      | none => true
      | some p => decide (r p < r e.1)))

def RankedEnv (env : JobEnv) (r : String → Nat) : Prop :=
  rankedEnvB env r = true

theorem RankedEnv.parent_lt {env : JobEnv} {r : String → Nat}
    (h : RankedEnv env r) {j p : String} {v : Variant}
    (hv : v ∈ lookupJob env j) (hp : v.parent = some p) : r p < r j := by
  unfold lookupJob at hv
  cases hfind : List.find? (fun e => e.1 = j) env with
  | none => rw [hfind] at hv; simp at hv
  | some e =>
      rw [hfind] at hv
      have hmem : e ∈ env := List.mem_of_find?_eq_some hfind
      have hej : e.1 = j := by
        have := List.find?_some hfind
        simpa using this
      have hall := (List.all_eq_true.mp h) e hmem
      have hv' := (List.all_eq_true.mp hall) v hv
      rw [hp] at hv'
      rw [← hej]
      simpa using hv'

theorem variablesFold_isSome_of_ranked (env : JobEnv) (r : String → Nat)
    (hr : RankedEnv env r) :
    ∀ (fuel : Nat) (j : String) (acc : Dict Nat), r j < fuel →
      (variablesFold env fuel (lookupJob env j) (some acc)).isSome := by
  intro fuel
  induction fuel using Nat.strong_induction_on with
  | _ fuel ih =>
      intro j acc hj
      have main : ∀ (vs : List Variant), (∀ v ∈ vs, v ∈ lookupJob env j) →
          ∀ (a : Dict Nat), (variablesFold env fuel vs (some a)).isSome := by
        intro vs
        induction vs with
        | nil => intro _ a; rfl
        | cons pv rest ihl =>
            intro hsub a
            have hpv : pv ∈ lookupJob env j := hsub pv (List.mem_cons_self pv rest)
            have hrec : (variablesRec env fuel true pv).isSome := by
              cases fuel with
              | zero => omega
              | succ g =>
                  cases hp : pv.parent with
                  | none => rw [variablesRec_succ_noParent env g pv hp]; rfl
                  | some p =>
                      rw [variablesRec_succ_parent env g pv p hp]
                      have hpj : r p < r j := hr.parent_lt hpv hp
                      exact ih g (Nat.lt_succ_self g) p _ (by omega)
            obtain ⟨rr, hrr⟩ := Option.isSome_iff_exists.mp hrec
            rw [variablesFold_cons, hrr]
            simp only [Option.some_bind, Option.map_some']
            exact ihl (fun v hv => hsub v (List.mem_cons_of_mem pv hv)) (dictUpdate a rr)
      exact main (lookupJob env j) (fun v hv => hv) acc

/-- A one-job environment whose only variant names its own job as parent:
the smallest cyclic parent graph. -/
def cyclicVariant : Variant := { name := "loop", parent := some "loop", vars := [] }

def cyclicEnv : JobEnv := [("loop", [cyclicVariant])]

theorem variablesRec_cyclic_none :
    ∀ fuel, variablesRec cyclicEnv fuel true cyclicVariant = none := by
  intro fuel
  induction fuel with
  | zero => rfl
  | succ f ih =>
      rw [variablesRec_succ_parent cyclicEnv f cyclicVariant "loop" rfl]
      have hlook : lookupJob cyclicEnv "loop" = [cyclicVariant] := by decide
      rw [hlook, variablesFold_cons, ih]
      simp [variablesFold_none]

/-- A ranking witnessing that the parent references of `chainEnv` are
acyclic: `A` above `B` above `C`. -/
def chainRank (s : String) : Nat :=
  if s = "A" then 2 else if s = "B" then 1 else 0

/-- C1, counterexample.  On the chain `A → B → C` (C: `{x: 1}`,
B: `{x: 2, y: 3}`, A: `{y: 4}`), `variables(recursive=True)` on A's variant
returns the mapping `{y: 3, x: 1}`: `x` does not resolve to `2` and `y`
does not resolve to `4`, contradicting the claimed nearest-definition-wins
result `{x: 2, y: 4}`.  (Fuel `4` is enough for the three-job chain; any
larger fuel gives the same value.) -/
theorem variables_nearest_wins_counterexample :
    variablesRec chainEnv 4 true variantA = some [("y", 3), ("x", 1)] ∧
    (variablesRec chainEnv 4 true variantA).map (fun d => dictLookup d "x") ≠
      some (some 2) ∧
    (variablesRec chainEnv 4 true variantA).map (fun d => dictLookup d "y") ≠
      some (some 4) :=
  ⟨by decide, by decide, by decide⟩

/-- C1, amended.  `variables(recursive=True)` merges the variable mappings
along the parent chain with the parent's contribution applied on top of the
variant's own mapping, so a farther (ancestor) definition of a key overrides
a closer (child) definition: whenever the walk finishes, a key resolves to
the parent chain's value when the chain defines it, and to the variant's own
value otherwise.  On the chain `A → B → C` with C defining `{x: 1}`, B
defining `{x: 2, y: 3}`, A defining `{y: 4}`, `variables(recursive=True)` on
A returns `{y: 3, x: 1}`.  Non-recursive mode returns only the variant's own
mapping. -/
theorem variables_recursive_farthest_wins :
    (∀ (env : JobEnv) (f : Nat) (v : Variant) (p : String) (d d0 : Dict Nat),
      v.parent = some p →
      variablesRec env (Nat.succ f) true v = some d →
      variablesFold env f (lookupJob env p) (some []) = some d0 →
      ∀ k, dictLookup d k =
        (dictLookup d0 k).orElse (fun _ => dictLookup (dictUpdate [] v.vars) k)) ∧
    variablesRec chainEnv 4 true variantA = some [("y", 3), ("x", 1)] ∧
    (∀ (env : JobEnv) (f : Nat) (v : Variant),
      variablesRec env (Nat.succ f) false v = some (dictUpdate [] v.vars)) := by
  refine ⟨?_, by decide, fun env f v => variablesRec_succ_nonrecursive env f v⟩
  intro env f v p d d0 hp hd hd0
  rw [variablesRec_succ_parent env f v p hp] at hd
  obtain ⟨d0', h0', hlk⟩ :=
    variablesFold_lookup env f (lookupJob env p) (dictUpdate [] v.vars) d hd
  rw [hd0] at h0'
  cases h0'
  exact hlk

/-- Witness for `variables_recursive_farthest_wins` at the concrete chain:
key `x` of A's recursive variables is the parent chain's `1`, not A's own
(A defines no `x`), evaluated at `A → B` with parent-chain result
`{x: 1, y: 3}`. -/
theorem variables_recursive_farthest_wins_witness :
    dictLookup [("y", 3), ("x", 1)] "x" =
      (dictLookup [("x", 1), ("y", 3)] "x").orElse
        (fun _ => dictLookup (dictUpdate [] variantA.vars) "x") :=
  variables_recursive_farthest_wins.1 chainEnv 3 variantA "B"
    [("y", 3), ("x", 1)] [("x", 1), ("y", 3)] rfl (by decide) (by decide) "x"

/-- C10.  The recursive variable walk, embedded with explicit fuel,
completes (for some fuel) for every variant over an environment whose
name-resolved parent references are acyclic — witnessed by a ranking
function on job names — and over the one-job environment whose variant
names its own job as parent, it completes for no fuel at all: the source
carries no visited-set guard, so acyclicity is a necessary precondition. -/
theorem variables_termination_ranked_and_cycle :
    (∀ (env : JobEnv) (r : String → Nat), RankedEnv env r →
      ∀ (v : Variant), ∃ fuel, (variablesRec env fuel true v).isSome) ∧
    (∀ fuel, variablesRec cyclicEnv fuel true cyclicVariant = none) := by
  refine ⟨?_, variablesRec_cyclic_none⟩
  intro env r hr v
  cases hp : v.parent with
  | none =>
      exact ⟨1, by rw [variablesRec_succ_noParent env 0 v hp]; rfl⟩
  | some p =>
      refine ⟨Nat.succ (r p + 1), ?_⟩
      rw [variablesRec_succ_parent env (r p + 1) v p hp]
      exact variablesFold_isSome_of_ranked env r hr (r p + 1) p _ (Nat.lt_succ_self _)

/-- Witness for `variables_termination_ranked_and_cycle`: the acyclic chain
`A → B → C`, ranked by `chainRank`, terminates. -/
theorem variables_termination_ranked_and_cycle_witness :
    ∃ fuel, (variablesRec chainEnv fuel true variantA).isSome :=
  variables_termination_ranked_and_cycle.1 chainEnv chainRank rfl variantA

/-! ## The Zuul session (`ZuulSession.get` / `_check_request_status`)

`get` performs a single GET on an endpoint and hands the response to
`_check_request_status`, which calls `requests`' `raise_for_status()`.
`raise_for_status` raises `HTTPError` exactly for client-error (4xx) and
server-error (5xx) status codes, i.e. for `400 ≤ code < 600`; any other code
passes the check and `get` returns the response body.  On an `HTTPError`,
`_check_request_status` re-raises a single `ZuulAPIError` whose message is
picked by status code.  The session is modelled on one `HttpResponse`; it
issues exactly one request per `get` and performs no retry. -/

structure HttpResponse where
  statusCode : Nat
  url : String
  body : String
  deriving DecidableEq, Repr

/-- The `ZuulAPIError` message `_check_request_status` raises for a status
code that made `raise_for_status` throw. -/
def zuulErrorMessage (code : Nat) (url : String) : String :=
  if code = 401 then
    "Error - 401. Unauthorized access to resource: '" ++ url ++
      "'. Check credentials and try again."
  else if code = 403 then
    "Error - 403. Insufficient privileges to access resource at: '" ++ url ++
      "'. Check credentials and try again."
  else if code = 404 then
    "Error - 404. Resource not found at: '" ++ url ++
      "'. Check resource availability and try again."
  else
    "Unknown error code: '" ++ toString code ++ "' returned by host at: " ++
      url ++ ". Wait for a couple of minutes and try again..."

/-- `ZuulSession._check_request_status`: `request.raise_for_status()` throws
`HTTPError` iff `400 ≤ code < 600` (the `requests` library's documented
behaviour); in that case the method raises `ZuulAPIError` with the
code-determined message, otherwise it returns normally (`none`). -/
def checkRequestStatus (r : HttpResponse) : Option String :=
  if 400 ≤ r.statusCode ∧ r.statusCode < 600 then
    some (zuulErrorMessage r.statusCode r.url)
  else
    none

/-- `ZuulSession.get`: one GET; check the status, then return the JSON
body. -/
def sessionGet (r : HttpResponse) : Except String String :=
  match checkRequestStatus r with
  | some msg => Except.error msg
  | none => Except.ok r.body

/-! ## Remote-API handles and their equality (`rest.py` `__eq__` methods)

The API base classes (`cibyl/sources/zuul/apis/__init__.py`) are not under
`src/`; per the spec (§4.2) a handle wraps its owning parent handle plus the
raw entry it was built from, and a tenant handle — which defines no `__eq__`
of its own — compares by Python object identity, modelled by an identity
token `tid` ("identity of their owning parent", §4.2). -/

structure TenantH where
  tid : Nat
  name : String
  deriving DecidableEq, Repr

structure ProjectH where
  tenant : TenantH
  name : String
  deriving DecidableEq, Repr

/-- The raw job entry only needs its `name` field here. -/
structure JobRaw where
  name : String
  deriving DecidableEq, Repr

structure PipelineRaw where
  name : String
  /-- `pipeline['jobs']`: a list of job entries, each itself a list of
  variant entries. -/
  jobs : List (List JobRaw)
  deriving DecidableEq, Repr

structure PipelineH where
  project : ProjectH
  name : String
  /-- The wrapped `self._pipeline['jobs']` payload. -/
  jobsRaw : List (List JobRaw)
  deriving DecidableEq, Repr

structure JobH where
  tenant : TenantH
  name : String
  deriving DecidableEq, Repr

structure VariantH where
  job : JobH
  raw : Dict String
  deriving DecidableEq, Repr

structure BuildH where
  job : JobH
  raw : Dict String
  deriving DecidableEq, Repr

/-- Default Python equality of tenant handles: object identity. -/
def tenantEq (a b : TenantH) : Bool := a.tid == b.tid

/-- `ZuulProjectRESTClient.__eq__`: same tenant, same name. -/
def projectEq (a b : ProjectH) : Bool :=
  tenantEq a.tenant b.tenant && a.name == b.name

/-- `ZuulPipelineRESTClient.__eq__`: same project, same name. -/
def pipelineEq (a b : PipelineH) : Bool :=
  projectEq a.project b.project && a.name == b.name

/-- `ZuulJobRESTClient.__eq__`: same tenant, same name. -/
def jobEq (a b : JobH) : Bool :=
  tenantEq a.tenant b.tenant && a.name == b.name

/-- `ZuulVariantRESTClient.__eq__`: same job, same **entire raw entry**. -/
def variantEq (a b : VariantH) : Bool :=
  jobEq a.job b.job && a.raw == b.raw

/-- `ZuulBuildRESTClient.__eq__`: same job, same **entire raw entry**. -/
def buildEq (a b : BuildH) : Bool :=
  jobEq a.job b.job && a.raw == b.raw

inductive Handle where
  | tenant (t : TenantH)
  | project (p : ProjectH)
  | pipeline (pl : PipelineH)
  | job (j : JobH)
  | variant (v : VariantH)
  | build (b : BuildH)
  deriving DecidableEq, Repr

/-- Capability tag of a handle (which `ZuulXxxAPI` base class it belongs
to); the base classes are unrelated, so `issubclass(type(other), ...)`
holds only within one capability. -/
def Handle.capability : Handle → Nat
  | .tenant _ => 0
  | .project _ => 1
  | .pipeline _ => 2
  | .job _ => 3
  | .variant _ => 4
  | .build _ => 5

/-- The `__eq__` methods of the REST clients: each first rejects any object
outside its own capability (`issubclass(type(other), ZuulXxxAPI)`), then
compares as the capability prescribes.  The `self is other` fast path of
the source is subsumed: an object agrees with itself on every compared
field. -/
def handleEq : Handle → Handle → Bool
  | .tenant a, .tenant b => tenantEq a b
  | .project a, .project b => projectEq a b
  | .pipeline a, .pipeline b => pipelineEq a b
  | .job a, .job b => jobEq a b
  | .variant a, .variant b => variantEq a b
  | .build a, .build b => buildEq a b
  | _, _ => false

/-! ## Build tests (`ZuulBuildRESTClient.tests`) -/

structure TestH where
  name : String
  result : String
  deriving DecidableEq, Repr

/-- `ZuulBuildRESTClient.tests`: the body is `return []` — no test
entities, no exception, and no `session.get` (second component: the log of
endpoints requested, empty). -/
def buildTests (_b : BuildH) : List TestH × List String := ([], [])

/-! ## Child-listing operations of the REST clients

The remote host is modelled as a record of typed endpoints, one per GET the
listings perform.  Each listing returns its result paired with the number of
`session.get` calls its body issues. -/

structure TenantRaw where
  name : String
  deriving DecidableEq, Repr

structure ProjectRaw where
  name : String
  deriving DecidableEq, Repr

/-- One entry of a project detail's `configs` section. -/
structure ConfigRaw where
  pipelines : List PipelineRaw
  deriving DecidableEq, Repr

/-- Response of `GET tenant/{t}/project/{p}`. -/
structure ProjectDetail where
  configs : List ConfigRaw
  deriving DecidableEq, Repr

structure ZuulHost where
  /-- `GET tenants` -/
  tenantsEp : List TenantRaw
  /-- `GET tenant/{t}/projects` -/
  tenantProjectsEp : String → List ProjectRaw
  /-- `GET tenant/{t}/jobs` -/
  tenantJobsEp : String → List JobRaw
  /-- `GET tenant/{t}/builds` -/
  tenantBuildsEp : String → List (Dict String)
  /-- `GET tenant/{t}/builds?job_name={j}` -/
  jobBuildsEp : String → String → List (Dict String)
  /-- `GET tenant/{t}/project/{p}` -/
  projectEp : String → String → ProjectDetail
  /-- `GET tenant/{t}/job/{j}` -/
  jobVariantsEp : String → String → List (Dict String)

/-- `ZuulRESTClient.tenants`: one GET of `tenants`, wrapping each entry in
a tenant handle (`baseId + i` models the fresh object identity of the
`i`-th wrapper). -/
def zuulTenants (host : ZuulHost) (baseId : Nat) : List TenantH × Nat :=
  (host.tenantsEp.enum.map (fun it => { tid := baseId + it.1, name := it.2.name }), 1)

/-- `ZuulTenantRESTClient.projects`: one GET of `tenant/{name}/projects`,
wrapping each entry in a project handle owned by this tenant. -/
def tenantProjects (host : ZuulHost) (t : TenantH) : List ProjectH × Nat :=
  ((host.tenantProjectsEp t.name).map (fun p => { tenant := t, name := p.name }), 1)

/-- `ZuulTenantRESTClient.jobs`: one GET of `tenant/{name}/jobs`, wrapping
each entry in a job handle owned by this tenant. -/
def tenantJobs (host : ZuulHost) (t : TenantH) : List JobH × Nat :=
  ((host.tenantJobsEp t.name).map (fun j => { tenant := t, name := j.name }), 1)

/-- `ZuulTenantRESTClient.builds`: one GET of `tenant/{name}/builds`, whose
response is returned **as is** — no wrapping into build handles. -/
def tenantBuilds (host : ZuulHost) (t : TenantH) : List (Dict String) × Nat :=
  (host.tenantBuildsEp t.name, 1)

/-- `ZuulProjectRESTClient.pipelines`: one GET of
`tenant/{t}/project/{p}`, then wrap every pipeline of every config. -/
def projectPipelines (host : ZuulHost) (p : ProjectH) : List PipelineH × Nat :=
  (((host.projectEp p.tenant.name p.name).configs.flatMap (fun c => c.pipelines)).map
    (fun pl => { project := p, name := pl.name, jobsRaw := pl.jobs }), 1)

/-- `ZuulPipelineRESTClient.jobs`: **no** GET — it iterates the already
fetched `self._pipeline['jobs']` payload, wrapping each variant entry of
each job entry in a job handle owned by the project's tenant. -/
def pipelineJobs (pl : PipelineH) : List JobH × Nat :=
  (pl.jobsRaw.flatMap (fun job =>
    job.map (fun variant => { tenant := pl.project.tenant, name := variant.name })), 0)

/-- `ZuulJobRESTClient.variants`: one GET of `tenant/{t}/job/{name}`,
wrapping each entry in a variant handle owned by this job. -/
def jobVariants (host : ZuulHost) (j : JobH) : List VariantH × Nat :=
  ((host.jobVariantsEp j.tenant.name j.name).map (fun v => { job := j, raw := v }), 1)

/-- `ZuulJobRESTClient.builds`: one GET of
`tenant/{t}/builds?job_name={name}`, wrapping each entry in a build handle
owned by this job. -/
def jobBuilds (host : ZuulHost) (j : JobH) : List BuildH × Nat :=
  ((host.jobBuildsEp j.tenant.name j.name).map (fun b => { job := j, raw := b }), 1)

/-! ## Source method resolution (`Source.get_source_method`) -/

/-- A CI source as `get_source_method` sees it: what matters is its set of
exposed attributes (`hasattr(source, func_name)`). -/
structure CiSource where
  name : String
  driver : String
  methods : List String
  deriving DecidableEq, Repr

/-- The value `getattr(valid_sources[0], func_name)` stands for: a bound
method of a particular source. -/
structure SourceMethod where
  source : CiSource
  funcName : String
  deriving DecidableEq, Repr

inductive SourceError where
  | noSupportedSourcesFound (systemName funcName : String)
  | tooManyValidSources (systemName : String)
  deriving DecidableEq, Repr

/-- `Source.get_source_method`: collect the sources exposing `funcName`
(in order); raise `NoSupportedSourcesFound` when none does,
`TooManyValidSources` when more than one does, and otherwise return the
unique qualifying source's method. -/
def getSourceMethod (systemName : String) (sources : List CiSource)
    (funcName : String) : Except SourceError SourceMethod :=
  match sources.filter (fun s => s.methods.contains funcName) with
  | [] => Except.error (SourceError.noSupportedSourcesFound systemName funcName)
  | [s] => Except.ok { source := s, funcName := funcName }
  | _ :: _ :: _ => Except.error (SourceError.tooManyValidSources systemName)

/-! ## Sample data used by counterexamples and witnesses -/

def tenant0 : TenantH := { tid := 0, name := "tenant" }

def job0 : JobH := { tenant := tenant0, name := "job" }

def build1 : BuildH := { job := job0, raw := [("uuid", "1"), ("result", "SUCCESS")] }

def build2 : BuildH := { job := job0, raw := [("uuid", "1"), ("result", "FAILURE")] }

def sampleHost : ZuulHost where
  tenantsEp := [{ name := "t" }]
  tenantProjectsEp := fun _ => [{ name := "p" }]
  tenantJobsEp := fun _ => [{ name := "j" }]
  tenantBuildsEp := fun _ => [[("uuid", "1"), ("result", "SUCCESS")]]
  jobBuildsEp := fun _ _ => [[("uuid", "1"), ("result", "SUCCESS")]]
  projectEp := fun _ _ =>
    { configs := [{ pipelines := [{ name := "check", jobs := [[{ name := "j" }]] }] }] }
  jobVariantsEp := fun _ _ => [[("name", "j")]]

def sampleTenant : TenantH := { tid := 0, name := "t" }

def sampleProject : ProjectH := { tenant := sampleTenant, name := "p" }

def samplePipeline : PipelineH :=
  { project := sampleProject, name := "check", jobsRaw := [[{ name := "j" }]] }

def sourceA : CiSource :=
  { name := "zuul-src", driver := "zuul", methods := ["get_jobs", "get_builds"] }

def sourceB : CiSource :=
  { name := "jenkins-src", driver := "jenkins", methods := ["get_jobs"] }

/-! ## Claim theorems: session, equality, listings, tests, source lookup -/

/-- C5, counterexample.  A response with status code 304 — not a 2xx — is
returned by `get` as a normal JSON body: `raise_for_status` only throws for
4xx/5xx, so no error is raised, contradicting the claim that every non-2xx
status raises a remote-API error. -/
theorem session_get_non2xx_counterexample :
    sessionGet { statusCode := 304, url := "u", body := "b" } = Except.ok "b" ∧
    ¬(200 ≤ 304 ∧ 304 < 300) :=
  ⟨rfl, by omega⟩

/-- C5, amended.  `get` returns the body exactly when the status code is
outside `[400, 600)` (in particular for every 2xx), and raises exactly one
remote-API error for every code in `[400, 600)`, with the message
determined by the code: 401 unauthorized, 403 insufficient privileges,
404 resource not found, and any other such code an unknown-code message
recommending retry after a delay.  The session itself performs no retry
(the model consumes exactly one response per call). -/
theorem session_get_status_mapping (r : HttpResponse) :
    (sessionGet r = Except.ok r.body ↔ (r.statusCode < 400 ∨ 600 ≤ r.statusCode)) ∧
    (200 ≤ r.statusCode → r.statusCode < 300 → sessionGet r = Except.ok r.body) ∧
    (400 ≤ r.statusCode → r.statusCode < 600 →
      sessionGet r = Except.error (zuulErrorMessage r.statusCode r.url)) ∧
    (r.statusCode = 401 → sessionGet r = Except.error
      ("Error - 401. Unauthorized access to resource: '" ++ r.url ++
        "'. Check credentials and try again.")) ∧
    (r.statusCode = 403 → sessionGet r = Except.error
      ("Error - 403. Insufficient privileges to access resource at: '" ++ r.url ++
        "'. Check credentials and try again.")) ∧
    (r.statusCode = 404 → sessionGet r = Except.error
      ("Error - 404. Resource not found at: '" ++ r.url ++
        "'. Check resource availability and try again.")) ∧
    (400 ≤ r.statusCode → r.statusCode < 600 →
      r.statusCode ≠ 401 → r.statusCode ≠ 403 → r.statusCode ≠ 404 →
      sessionGet r = Except.error
        ("Unknown error code: '" ++ toString r.statusCode ++
          "' returned by host at: " ++ r.url ++
          ". Wait for a couple of minutes and try again...")) := by
  refine ⟨?_, ?_, ?_, ?_, ?_, ?_, ?_⟩
  · by_cases h : 400 ≤ r.statusCode ∧ r.statusCode < 600
    · simp only [sessionGet, checkRequestStatus, if_pos h]
      constructor
      · intro hc; cases hc
      · intro hc; omega
    · simp only [sessionGet, checkRequestStatus, if_neg h]
      constructor
      · intro _; omega
      · intro _; trivial
  · intro h1 h2
    have h : ¬(400 ≤ r.statusCode ∧ r.statusCode < 600) := by omega
    simp [sessionGet, checkRequestStatus, h]
  · intro h1 h2
    have h : 400 ≤ r.statusCode ∧ r.statusCode < 600 := ⟨h1, h2⟩
    simp [sessionGet, checkRequestStatus, h]
  · intro h401
    have h : 400 ≤ r.statusCode ∧ r.statusCode < 600 := by omega
    simp [sessionGet, checkRequestStatus, zuulErrorMessage, h, h401]
  · intro h403
    have h : 400 ≤ r.statusCode ∧ r.statusCode < 600 := by omega
    simp [sessionGet, checkRequestStatus, zuulErrorMessage, h, h403]
  · intro h404
    have h : 400 ≤ r.statusCode ∧ r.statusCode < 600 := by omega
    simp [sessionGet, checkRequestStatus, zuulErrorMessage, h, h404]
  · intro h1 h2 h401 h403 h404
    have h : 400 ≤ r.statusCode ∧ r.statusCode < 600 := ⟨h1, h2⟩
    simp [sessionGet, checkRequestStatus, zuulErrorMessage, h, h401, h403, h404]

/-- Witness for `session_get_status_mapping`: a 404 response raises the
resource-not-found message. -/
theorem session_get_status_mapping_witness :
    sessionGet { statusCode := 404, url := "api/tenants", body := "" } =
      Except.error ("Error - 404. Resource not found at: '" ++ "api/tenants" ++
        "'. Check resource availability and try again.") :=
  (session_get_status_mapping
    { statusCode := 404, url := "api/tenants", body := "" }).2.2.2.2.2.1 rfl

/-- C6, counterexample.  Two build handles under the same owning job and
with the same name (`uuid`) are NOT equal: `ZuulBuildRESTClient.__eq__`
compares the whole raw entry, and the raws differ in their `result` field.
Equality of builds (and variants) is therefore not parent + name. -/
theorem handle_equality_counterexample :
    handleEq (.build build1) (.build build2) = false ∧
    jobEq build1.job build2.job = true ∧
    dictLookup build1.raw "uuid" = dictLookup build2.raw "uuid" := by
  decide

/-- C6, amended.  Handle equality per capability: tenants compare by object
identity; projects and jobs by owning tenant + name; pipelines by owning
project + name; variants and builds by owning job + **entire raw entry**
(not just the name).  Handles of different capabilities are never equal,
and every handle equals itself. -/
theorem handle_equality_spec :
    (∀ a b : TenantH, handleEq (.tenant a) (.tenant b) = true ↔ a.tid = b.tid) ∧
    (∀ a b : ProjectH, handleEq (.project a) (.project b) = true ↔
      (tenantEq a.tenant b.tenant = true ∧ a.name = b.name)) ∧
    (∀ a b : PipelineH, handleEq (.pipeline a) (.pipeline b) = true ↔
      (projectEq a.project b.project = true ∧ a.name = b.name)) ∧
    (∀ a b : JobH, handleEq (.job a) (.job b) = true ↔
      (tenantEq a.tenant b.tenant = true ∧ a.name = b.name)) ∧
    (∀ a b : VariantH, handleEq (.variant a) (.variant b) = true ↔
      (jobEq a.job b.job = true ∧ a.raw = b.raw)) ∧
    (∀ a b : BuildH, handleEq (.build a) (.build b) = true ↔
      (jobEq a.job b.job = true ∧ a.raw = b.raw)) ∧
    (∀ h h' : Handle, h.capability ≠ h'.capability → handleEq h h' = false) ∧
    (∀ h : Handle, handleEq h h = true) := by
  refine ⟨?_, ?_, ?_, ?_, ?_, ?_, ?_, ?_⟩
  · intro a b; simp [handleEq, tenantEq]
  · intro a b; simp [handleEq, projectEq]
  · intro a b; simp [handleEq, pipelineEq]
  · intro a b; simp [handleEq, jobEq]
  · intro a b; simp [handleEq, variantEq]
  · intro a b; simp [handleEq, buildEq]
  · intro h h' hne
    cases h <;> cases h' <;> simp_all [handleEq, Handle.capability]
  · intro h
    cases h <;>
      simp [handleEq, tenantEq, projectEq, pipelineEq, jobEq, variantEq, buildEq]

/-- Witness for `handle_equality_spec`: a tenant handle compared with a job
handle (different capabilities) is unequal. -/
theorem handle_equality_spec_witness :
    handleEq (.tenant tenant0) (.job job0) = false :=
  handle_equality_spec.2.2.2.2.2.2.1 (.tenant tenant0) (.job job0) (by decide)

/-- C7, counterexample.  The tenant-level `builds()` hands back the raw
response of `tenant/{name}/builds` unchanged — raw entries, not build
handles — and the pipeline-level `jobs()` performs zero network calls
rather than one. -/
theorem listings_counterexample :
    (tenantBuilds sampleHost sampleTenant).1 = sampleHost.tenantBuildsEp "t" ∧
    (tenantBuilds sampleHost sampleTenant).1 =
      [[("uuid", "1"), ("result", "SUCCESS")]] ∧
    (pipelineJobs samplePipeline).2 = 0 ∧
    (pipelineJobs samplePipeline).2 ≠ 1 :=
  ⟨rfl, rfl, rfl, by decide⟩

/-- C7, amended.  Every child listing is a single blocking call returning
typed handles owned by the caller — except that the pipeline-level `jobs()`
performs no network call (it reads the already fetched pipeline payload),
and the tenant-level `builds()` performs one call but returns the raw
response data unwrapped. -/
theorem listings_spec (host : ZuulHost) (baseId : Nat) (t : TenantH)
    (p : ProjectH) (pl : PipelineH) (j : JobH) :
    ((zuulTenants host baseId).2 = 1 ∧
      (zuulTenants host baseId).1.map TenantH.name =
        host.tenantsEp.map TenantRaw.name) ∧
    ((tenantProjects host t).2 = 1 ∧
      ∀ h ∈ (tenantProjects host t).1, h.tenant = t) ∧
    ((tenantJobs host t).2 = 1 ∧
      ∀ h ∈ (tenantJobs host t).1, h.tenant = t) ∧
    ((tenantBuilds host t).2 = 1 ∧
      (tenantBuilds host t).1 = host.tenantBuildsEp t.name) ∧
    ((projectPipelines host p).2 = 1 ∧
      ∀ h ∈ (projectPipelines host p).1, h.project = p) ∧
    ((pipelineJobs pl).2 = 0 ∧
      ∀ h ∈ (pipelineJobs pl).1, h.tenant = pl.project.tenant) ∧
    ((jobVariants host j).2 = 1 ∧
      ∀ h ∈ (jobVariants host j).1, h.job = j) ∧
    ((jobBuilds host j).2 = 1 ∧
      ∀ h ∈ (jobBuilds host j).1, h.job = j) := by
  refine ⟨⟨rfl, ?_⟩, ⟨rfl, ?_⟩, ⟨rfl, ?_⟩, ⟨rfl, rfl⟩, ⟨rfl, ?_⟩, ⟨rfl, ?_⟩,
    ⟨rfl, ?_⟩, ⟨rfl, ?_⟩⟩
  · show (host.tenantsEp.enum.map _).map TenantH.name = _
    rw [List.map_map]
    have : (TenantH.name ∘ fun it : Nat × TenantRaw =>
        ({ tid := baseId + it.1, name := it.2.name } : TenantH)) =
        (TenantRaw.name ∘ Prod.snd) := rfl
    rw [this, ← List.map_map, List.enum_map_snd]
  · intro h hmem
    simp only [tenantProjects, List.mem_map] at hmem
    obtain ⟨pr, _, rfl⟩ := hmem
    rfl
  · intro h hmem
    simp only [tenantJobs, List.mem_map] at hmem
    obtain ⟨jr, _, rfl⟩ := hmem
    rfl
  · intro h hmem
    simp only [projectPipelines, List.mem_map] at hmem
    obtain ⟨plr, _, rfl⟩ := hmem
    rfl
  · intro h hmem
    simp only [pipelineJobs, List.mem_flatMap, List.mem_map] at hmem
    obtain ⟨job, _, vr, _, rfl⟩ := hmem
    rfl
  · intro h hmem
    simp only [jobVariants, List.mem_map] at hmem
    obtain ⟨vr, _, rfl⟩ := hmem
    rfl
  · intro h hmem
    simp only [jobBuilds, List.mem_map] at hmem
    obtain ⟨br, _, rfl⟩ := hmem
    rfl

/-- Witness for `listings_spec`: the one project handle listed for the
sample tenant is owned by that tenant. -/
theorem listings_spec_witness :
    ({ tenant := sampleTenant, name := "p" } : ProjectH).tenant = sampleTenant :=
  ((listings_spec sampleHost 0 sampleTenant sampleProject samplePipeline
    job0).2.1.2) { tenant := sampleTenant, name := "p" } (by decide)

/-- C8.  `ZuulBuildRESTClient.tests` returns the empty list for every
build; its body is `return []`, so no exception is raised and the request
log (second component) is empty — no network call is made. -/
theorem build_tests_empty : ∀ b : BuildH, buildTests b = ([], []) :=
  fun _ => rfl

/-- C9.  `Source.get_source_method` raises `NoSupportedSourcesFound` iff no
source in the list exposes the requested function, raises
`TooManyValidSources` iff more than one does, and otherwise returns the
unique qualifying source's method. -/
theorem get_source_method_spec (systemName funcName : String)
    (sources : List CiSource) :
    (getSourceMethod systemName sources funcName =
        Except.error (SourceError.noSupportedSourcesFound systemName funcName) ↔
      sources.countP (fun s => s.methods.contains funcName) = 0) ∧
    (getSourceMethod systemName sources funcName =
        Except.error (SourceError.tooManyValidSources systemName) ↔
      1 < sources.countP (fun s => s.methods.contains funcName)) ∧
    (∀ s, sources.filter (fun s' => s'.methods.contains funcName) = [s] →
      getSourceMethod systemName sources funcName =
        Except.ok { source := s, funcName := funcName }) := by
  rw [List.countP_eq_length_filter]
  unfold getSourceMethod
  rcases hf : sources.filter (fun s => s.methods.contains funcName) with
    _ | ⟨s1, _ | ⟨s2, rest⟩⟩
  · rw [hf]
    refine ⟨by simp, by simp, ?_⟩
    intro s hs
    cases hs
  · rw [hf]
    refine ⟨by simp, by simp, ?_⟩
    intro s hs
    cases hs
    rfl
  · rw [hf]
    refine ⟨by simp,
      iff_of_true rfl (by simp only [List.length_cons]; omega), ?_⟩
    intro s hs
    cases hs

/-- Witness for `get_source_method_spec`: of the two configured sources
only `sourceA` exposes `get_builds`, and its method is returned. -/
theorem get_source_method_spec_witness :
    getSourceMethod "system" [sourceA, sourceB] "get_builds" =
      Except.ok { source := sourceA, funcName := "get_builds" } :=
  (get_source_method_spec "system" "get_builds" [sourceA, sourceB]).2.2 sourceA
    (by decide)

/-! ## Query depth and the colored Zuul system printer

`QueryType` is the total order of §4.1 over the main-chain levels — the
class itself (`cibyl/cli/query.py`) is not under `src/`, so it is modelled
from the spec; the two plugin-only extension levels (`FEATURES`,
`FEATURES_JOBS`) take part in no claim here and are omitted.  Comparisons
in the printers (`self.query >= QueryType.X`) become `qge q .X`. -/

inductive QueryType where
  | NONE
  | TENANTS
  | PROJECTS
  | PIPELINES
  | JOBS
  | VARIANTS
  | BUILDS
  | TESTS
  deriving DecidableEq, Repr, Fintype

/-- Position of a level in the total order of §4.1. -/
def QueryType.rank : QueryType → Nat
  | .NONE => 0
  | .TENANTS => 1
  | .PROJECTS => 2
  | .PIPELINES => 3
  | .JOBS => 4
  | .VARIANTS => 5
  | .BUILDS => 6
  | .TESTS => 7

/-- `q >= l` on query types. -/
def qge (q l : QueryType) : Bool := decide (l.rank ≤ q.rank)

/-! Model-layer entities the printers consume (spec §3).  Python truthiness
of an optional string field (`build.status.value`) is modelled by
emptiness. -/

structure BuildM where
  build_id : String
  status : String
  project : String
  pipeline : String
  deriving DecidableEq, Repr

structure VariantM where
  description : String
  deriving DecidableEq, Repr

structure JobM where
  name : String
  variants : List VariantM
  builds : List BuildM
  deriving DecidableEq, Repr

structure PipelineM where
  name : String
  jobs : List JobM
  deriving DecidableEq, Repr

structure ProjectM where
  name : String
  pipelines : List PipelineM
  deriving DecidableEq, Repr

structure TenantM where
  name : String
  projects : List ProjectM
  jobs : List JobM
  deriving DecidableEq, Repr

structure SystemM where
  name : String
  tenants : List TenantM
  deriving DecidableEq, Repr

/-- One line category of printer output; text details (colors, totals,
URLs, indents) are abstracted away, the hierarchy level of each printed
node is kept. -/
inductive Ev where
  | system (name : String)
  | tenant (name : String)
  | project (name : String)
  | pipeline (name : String)
  | job (name : String)
  | variant (description : String)
  | build (b : BuildM)
  | test (name : String)
  deriving DecidableEq, Repr

/-- The hierarchy level a printed line belongs to (the system header is the
root, level `NONE`). -/
def Ev.levelOf : Ev → QueryType
  | .system _ => .NONE
  | .tenant _ => .TENANTS
  | .project _ => .PROJECTS
  | .pipeline _ => .PIPELINES
  | .job _ => .JOBS
  | .variant _ => .VARIANTS
  | .build _ => .BUILDS
  | .test _ => .TESTS

/-! ### `ColoredZuulSystemPrinter.ProjectCascade`
(`cibyl/outputs/cli/ci/systems/zuul/colored.py`) -/

/-- `ProjectCascade._print_build`: the build line (plus its status
section, detail of the same line's level). -/
def printBuildPC (b : BuildM) : List Ev := [.build b]

/-- `ProjectCascade._print_job`: the job line; then, only when the query
depth reaches `BUILDS`, every build of the job whose `project` equals this
project's name and whose `pipeline` equals this pipeline's name (the two
`continue` guards of the source). -/
def printJobPC (q : QueryType) (proj : ProjectM) (pl : PipelineM)
    (job : JobM) : List Ev :=
  Ev.job job.name ::
    (if qge q .BUILDS then
      job.builds.flatMap (fun b =>
        if b.project ≠ proj.name then []
        else if b.pipeline ≠ pl.name then []
        else printBuildPC b)
    else [])

/-- `ProjectCascade._print_pipeline`: the pipeline line; jobs only when the
depth reaches `JOBS`. -/
def printPipelinePC (q : QueryType) (proj : ProjectM) (pl : PipelineM) :
    List Ev :=
  Ev.pipeline pl.name ::
    (if qge q .JOBS then pl.jobs.flatMap (printJobPC q proj pl) else [])

/-- `ProjectCascade.print_project`: the project line; pipelines only when
the depth reaches `PIPELINES`. -/
def printProjectPC (q : QueryType) (proj : ProjectM) : List Ev :=
  Ev.project proj.name ::
    (if qge q .PIPELINES then proj.pipelines.flatMap (printPipelinePC q proj)
     else [])

/-! ### `ColoredZuulSystemPrinter.JobCascade`

`JobCascade.print_job` prints the variants and the builds of a
tenant-scoped job guarded only by Python truthiness of the collections —
there is **no** depth comparison in this cascade. -/

def printVariantJC (v : VariantM) : List Ev := [.variant v.description]

def printBuildJC (b : BuildM) : List Ev := [.build b]

/-- `JobCascade.print_job`. -/
def printJobJC (job : JobM) : List Ev :=
  Ev.job job.name ::
    ((if job.variants ≠ [] then job.variants.flatMap printVariantJC else []) ++
      (if job.builds ≠ [] then job.builds.flatMap printBuildJC else []))

/-- `ColoredZuulSystemPrinter._print_tenant`: the tenant line; projects
(via a fresh `ProjectCascade`) when the depth reaches `PROJECTS`, and —
nested inside that guard — tenant-scoped jobs (via a fresh `JobCascade`)
when it also reaches `JOBS`. -/
def printTenant (q : QueryType) (t : TenantM) : List Ev :=
  Ev.tenant t.name ::
    (if qge q .PROJECTS then
      t.projects.flatMap (printProjectPC q) ++
        (if qge q .JOBS then t.jobs.flatMap printJobJC else [])
    else [])

/-- `ColoredZuulSystemPrinter.print_system`: the base printer's system
header (its own job loop, guarded by `query != NONE`, walks the system's
job collection, which stays empty for a Zuul system — tenants own the jobs,
spec §3), then every tenant when the depth reaches `TENANTS`. -/
def printSystem (q : QueryType) (s : SystemM) : List Ev :=
  Ev.system s.name ::
    (if qge q .TENANTS then s.tenants.flatMap (printTenant q) else [])

/-! ### Depth-gated population (spec-modelled)

The query handlers that populate the model tree (`QuickQuery` and the
`cibyl.sources.zuul.queries` modules) are not under `src/`.  Modelled from
the spec: "requesting depth `D` must fetch and populate every level from
the root up to and including `D`, and must not fetch levels strictly
greater than `D`" (§4.1); a node below the requested depth keeps an empty
child collection (§3). -/

def populateJob (q : QueryType) (j : JobM) : JobM :=
  { j with
    variants := if qge q .VARIANTS then j.variants else [],
    builds := if qge q .BUILDS then j.builds else [] }

def populatePipeline (q : QueryType) (pl : PipelineM) : PipelineM :=
  { pl with jobs := if qge q .JOBS then pl.jobs.map (populateJob q) else [] }

def populateProject (q : QueryType) (p : ProjectM) : ProjectM :=
  { p with
    pipelines :=
      if qge q .PIPELINES then p.pipelines.map (populatePipeline q) else [] }

def populateTenant (q : QueryType) (t : TenantM) : TenantM :=
  { t with
    projects := if qge q .PROJECTS then t.projects.map (populateProject q) else [],
    jobs := if qge q .JOBS then t.jobs.map (populateJob q) else [] }

def populateSystem (q : QueryType) (s : SystemM) : SystemM :=
  { s with tenants := if qge q .TENANTS then s.tenants.map (populateTenant q) else [] }

/-- A fully fleshed-out raw tree: one node with content at every level the
Zuul printer can reach. -/
def fullSystem : SystemM :=
  { name := "zuul-system",
    tenants := [
      { name := "tenant",
        projects := [
          { name := "project",
            pipelines := [
              { name := "check",
                jobs := [
                  { name := "job",
                    variants := [{ description := "variant" }],
                    builds := [{ build_id := "1", status := "SUCCESS",
                                 project := "project", pipeline := "check" }] }] }] }],
        jobs := [
          { name := "job",
            variants := [{ description := "variant" }],
            builds := [{ build_id := "1", status := "SUCCESS",
                         project := "project", pipeline := "check" }] }] }] }

/-! ### Rank bounds for each printing routine -/

theorem mem_printJobPC_rank (q : QueryType) (proj : ProjectM) (pl : PipelineM)
    (job : JobM) (hq : qge q .JOBS = true) :
    ∀ ev ∈ printJobPC q proj pl job, ev.levelOf.rank ≤ q.rank := by
  intro ev hev
  simp only [printJobPC, List.mem_cons] at hev
  rcases hev with rfl | hev
  · simpa [Ev.levelOf, qge, QueryType.rank] using hq
  · by_cases hb : qge q .BUILDS = true
    · rw [if_pos hb, List.mem_flatMap] at hev
      obtain ⟨b, _, hevb⟩ := hev
      have hevb' : ev = Ev.build b := by
        rcases Decidable.em (b.project = proj.name) with h1 | h1
        · rcases Decidable.em (b.pipeline = pl.name) with h2 | h2
          · simpa [printBuildPC, h1, h2] using hevb
          · simp [h1, h2] at hevb
        · simp [h1] at hevb
      subst hevb'
      simpa [Ev.levelOf, qge, QueryType.rank] using hb
    · rw [if_neg hb] at hev
      cases hev

theorem mem_printPipelinePC_rank (q : QueryType) (proj : ProjectM)
    (pl : PipelineM) (hq : qge q .PIPELINES = true) :
    ∀ ev ∈ printPipelinePC q proj pl, ev.levelOf.rank ≤ q.rank := by
  intro ev hev
  simp only [printPipelinePC, List.mem_cons] at hev
  rcases hev with rfl | hev
  · simpa [Ev.levelOf, qge, QueryType.rank] using hq
  · by_cases hj : qge q .JOBS = true
    · rw [if_pos hj, List.mem_flatMap] at hev
      obtain ⟨j, _, hevj⟩ := hev
      exact mem_printJobPC_rank q proj pl j hj ev hevj
    · rw [if_neg hj] at hev
      cases hev

theorem mem_printProjectPC_rank (q : QueryType) (proj : ProjectM)
    (hq : qge q .PROJECTS = true) :
    ∀ ev ∈ printProjectPC q proj, ev.levelOf.rank ≤ q.rank := by
  intro ev hev
  simp only [printProjectPC, List.mem_cons] at hev
  rcases hev with rfl | hev
  · simpa [Ev.levelOf, qge, QueryType.rank] using hq
  · by_cases hp : qge q .PIPELINES = true
    · rw [if_pos hp, List.mem_flatMap] at hev
      obtain ⟨pl, _, hevp⟩ := hev
      exact mem_printPipelinePC_rank q proj pl hp ev hevp
    · rw [if_neg hp] at hev
      cases hev

theorem mem_printJobJC_rank (q : QueryType) (j : JobM)
    (hq : qge q .JOBS = true) :
    ∀ ev ∈ printJobJC (populateJob q j), ev.levelOf.rank ≤ q.rank := by
  intro ev hev
  simp only [printJobJC, List.mem_cons, List.mem_append] at hev
  rcases hev with rfl | hev | hev
  · simpa [Ev.levelOf, qge, QueryType.rank] using hq
  · by_cases hv : qge q .VARIANTS = true
    · rcases Decidable.em ((populateJob q j).variants = []) with hne | hne
      · rw [if_neg (fun hc => hc hne)] at hev
        cases hev
      · rw [if_pos hne, List.mem_flatMap] at hev
        obtain ⟨v, _, hevv⟩ := hev
        simp only [printVariantJC, List.mem_singleton] at hevv
        subst hevv
        simpa [Ev.levelOf, qge, QueryType.rank] using hv
    · exfalso
      have : (populateJob q j).variants = [] := by
        simp [populateJob, hv]
      rw [if_neg (fun hc => hc this)] at hev
      cases hev
  · by_cases hb : qge q .BUILDS = true
    · rcases Decidable.em ((populateJob q j).builds = []) with hne | hne
      · rw [if_neg (fun hc => hc hne)] at hev
        cases hev
      · rw [if_pos hne, List.mem_flatMap] at hev
        obtain ⟨b, _, hevb⟩ := hev
        simp only [printBuildJC, List.mem_singleton] at hevb
        subst hevb
        simpa [Ev.levelOf, qge, QueryType.rank] using hb
    · exfalso
      have : (populateJob q j).builds = [] := by
        simp [populateJob, hb]
      rw [if_neg (fun hc => hc this)] at hev
      cases hev

theorem mem_printTenant_rank (q : QueryType) (t : TenantM)
    (hq : qge q .TENANTS = true) :
    ∀ ev ∈ printTenant q (populateTenant q t), ev.levelOf.rank ≤ q.rank := by
  intro ev hev
  simp only [printTenant, List.mem_cons] at hev
  rcases hev with rfl | hev
  · simpa [Ev.levelOf, qge, QueryType.rank] using hq
  · by_cases hp : qge q .PROJECTS = true
    · rw [if_pos hp, List.mem_append] at hev
      rcases hev with hev | hev
      · rw [List.mem_flatMap] at hev
        obtain ⟨proj, _, hevp⟩ := hev
        exact mem_printProjectPC_rank q proj hp ev hevp
      · by_cases hj : qge q .JOBS = true
        · rw [if_pos hj] at hev
          have hjobs : (populateTenant q t).jobs = t.jobs.map (populateJob q) := by
            simp [populateTenant, hj]
          rw [hjobs, List.mem_flatMap] at hev
          obtain ⟨j, hjmem, hevj⟩ := hev
          rw [List.mem_map] at hjmem
          obtain ⟨j0, _, rfl⟩ := hjmem
          exact mem_printJobJC_rank q j0 hj ev hevj
        · rw [if_neg hj] at hev
          cases hev
    · rw [if_neg hp] at hev
      cases hev

/-- C4.  Depth gating of the colored Zuul printer over a depth-populated
tree: first, no emitted line belongs to a level strictly above the
requested depth, for every depth and every raw tree; second, on a raw tree
with content at every level, a main-chain level between `TENANTS` and
`BUILDS` is emitted exactly when the requested depth reaches it.  (`TESTS`
is excluded from the second part: Zuul builds never populate tests, so the
level cannot appear — the documented limitation of C8.) -/
theorem depth_gate_monotonic :
    (∀ (q : QueryType) (s : SystemM) (ev : Ev),
      ev ∈ printSystem q (populateSystem q s) → ev.levelOf.rank ≤ q.rank) ∧
    (∀ (q L : QueryType), L ≠ .NONE → L.rank ≤ QueryType.rank .BUILDS →
      ((∃ ev ∈ printSystem q (populateSystem q fullSystem), ev.levelOf = L) ↔
        L.rank ≤ q.rank)) := by
  refine ⟨?_, by decide⟩
  intro q s ev hev
  simp only [printSystem, List.mem_cons] at hev
  rcases hev with rfl | hev
  · simp [Ev.levelOf, QueryType.rank]
  · by_cases ht : qge q .TENANTS = true
    · rw [if_pos ht] at hev
      have htens : (populateSystem q s).tenants = s.tenants.map (populateTenant q) := by
        simp [populateSystem, ht]
      rw [htens, List.mem_flatMap] at hev
      obtain ⟨t, htmem, hevt⟩ := hev
      rw [List.mem_map] at htmem
      obtain ⟨t0, _, rfl⟩ := htmem
      exact mem_printTenant_rank q t0 ht ev hevt
    · rw [if_neg ht] at hev
      cases hev

/-- Witness for `depth_gate_monotonic`: the tenant line emitted at depth
`TENANTS` is at a level within the bound. -/
theorem depth_gate_monotonic_witness :
    (Ev.tenant "tenant").levelOf.rank ≤ QueryType.TENANTS.rank :=
  depth_gate_monotonic.1 .TENANTS fullSystem (Ev.tenant "tenant") (by decide)

/-! ### Build attribution under a pipeline (C3) -/

def c3BuildIn : BuildM :=
  { build_id := "10", status := "SUCCESS", project := "P1", pipeline := "X" }

def c3BuildOut : BuildM :=
  { build_id := "11", status := "SUCCESS", project := "P2", pipeline := "X" }

def c3Job : JobM := { name := "job", variants := [], builds := [c3BuildIn, c3BuildOut] }

def c3Pipeline : PipelineM := { name := "X", jobs := [c3Job] }

def c3Project : ProjectM := { name := "P1", pipelines := [c3Pipeline] }

/-- C3.  When builds are printed under pipeline `pl` of project `proj`
(depth reaches `BUILDS`), a build line appears iff the build is among the
job's builds AND its own `project` field equals the project's name AND its
own `pipeline` field equals the pipeline's name; in particular, of the two
builds of `c3Job` fetched under pipeline `X` of project `P1`, the one with
`project="P1"` is printed and the one with `project="P2"` is not. -/
theorem build_attribution :
    (∀ (q : QueryType) (proj : ProjectM) (pl : PipelineM) (job : JobM)
      (b : BuildM), qge q .BUILDS = true →
      (Ev.build b ∈ printJobPC q proj pl job ↔
        (b ∈ job.builds ∧ b.project = proj.name ∧ b.pipeline = pl.name))) ∧
    Ev.build c3BuildIn ∈ printJobPC .BUILDS c3Project c3Pipeline c3Job ∧
    Ev.build c3BuildOut ∉ printJobPC .BUILDS c3Project c3Pipeline c3Job := by
  refine ⟨?_, by decide, by decide⟩
  intro q proj pl job b hq
  simp only [printJobPC, if_pos hq, List.mem_cons, List.mem_flatMap]
  constructor
  · rintro (h | ⟨b', hb', hmem⟩)
    · cases h
    · rcases Decidable.em (b'.project = proj.name) with h1 | h1
      · rcases Decidable.em (b'.pipeline = pl.name) with h2 | h2
        · have hb : b = b' := by
            simpa [printBuildPC, h1, h2] using hmem
          subst hb
          exact ⟨hb', h1, h2⟩
        · simp [h1, h2] at hmem
      · simp [h1] at hmem
  · rintro ⟨hb, h1, h2⟩
    exact Or.inr ⟨b, hb, by simp [printBuildPC, h1, h2]⟩

/-- Witness for `build_attribution`: the matching build is printed under
pipeline `X` of project `P1` at depth `BUILDS`. -/
theorem build_attribution_witness :
    Ev.build c3BuildIn ∈ printJobPC .BUILDS c3Project c3Pipeline c3Job :=
  (build_attribution.1 .BUILDS c3Project c3Pipeline c3Job c3BuildIn rfl).mpr
    (by decide)

/-! ## Hierarchy-aware job query (`HierarchyQuery.with_jobs_query`)

Source (`cibyl/sources/zuul/queries/composition/hierarchy.py`):

```
for job in perform_jobs_query(self.api, **kwargs):
    for variant in perform_variants_query(job):
        crawler = self.tools.crawlers.from_variant(variant)
        for level in crawler:
            if level.name == variant.name:
                continue
            kwargs['jobs'].value.append(f'^LEVEL$')   # LEVEL = level.name
return super().with_variants_query(**kwargs)
```

`perform_jobs_query` / `perform_variants_query` and the
`HierarchyCrawler` live in modules that are not under `src/`; the matched
variants are therefore taken as an input list of variant names (a
variant's `name` is its job's name), and the crawler is modelled from the
spec. -/

/-- Modelled from the spec: `HierarchyCrawler` (in
`cibyl/sources/zuul/utils/variants/hierarchy.py`, not under `src/`)
iterates the levels of a variant's hierarchy nearest first — the variant's
own job, then the job it inherits from, and so on — "until a Variant has
no parent or the parent cannot be resolved (treated as chain terminus, not
an error)" (§4.4).  `env` maps a job name to its parent's name; `fuel`
bounds the walk. -/
def crawl (env : Dict String) : Nat → String → List String
  | 0, start => [start]
  | Nat.succ f, start =>
      start ::
        (match dictLookup env start with
         | none => []
         | some p => crawl env f p)

/-- The `kwargs['jobs']` argument: a value list of name patterns. -/
structure JobsArg where
  value : List String
  deriving DecidableEq, Repr

/-- The keyword arguments `with_jobs_query` receives; only
`kwargs['jobs'].value` is touched, everything else passes through. -/
structure QueryArgs where
  jobs : JobsArg
  others : List (String × String)
  deriving DecidableEq, Repr

/-- `HierarchyQuery.with_jobs_query` filter expansion: for every matched
variant, walk its hierarchy and append the exact-match pattern `^N$` for
every level name `N` other than the variant's own name to the existing
`jobs` value list; the mutated kwargs are then handed to the delegate
(`super().with_variants_query(**kwargs)` in the source). -/
def withJobsQuery (env : Dict String) (fuel : Nat) (matched : List String)
    (args : QueryArgs) : QueryArgs :=
  { args with
    jobs := { value :=
      matched.foldl (fun acc vname =>
        acc ++ ((crawl env fuel vname).filter (fun nm => nm ≠ vname)).map
          (fun nm => "^" ++ nm ++ "$")) args.jobs.value } }

theorem foldl_append_flatMap {α β : Type} (f : α → List β) :
    ∀ (xs : List α) (acc : List β),
      xs.foldl (fun a x => a ++ f x) acc = acc ++ xs.flatMap f := by
  intro xs
  induction xs with
  | nil => intro acc; simp
  | cons x rest ih => intro acc; simp [ih]

/-- C2.  `with_jobs_query` mutates only the `jobs` value set, appending to
it the exact-match pattern `^N$` for every ancestor name `N` on each
matched variant's chain other than the variant's own name; the other
arguments (and hence the match semantics) are untouched.  In particular,
for the filter `jobs=["^child$"]` matching `child` which inherits from
`parent`, the expanded value list is `["^child$", "^parent$"]`, so the
delegate also queries `parent`'s data. -/
theorem with_jobs_query_expansion :
    (∀ (env : Dict String) (fuel : Nat) (matched : List String)
      (args : QueryArgs),
      (withJobsQuery env fuel matched args).others = args.others ∧
      (withJobsQuery env fuel matched args).jobs.value =
        args.jobs.value ++ matched.flatMap (fun vname =>
          ((crawl env fuel vname).filter (fun nm => nm ≠ vname)).map
            (fun nm => "^" ++ nm ++ "$"))) ∧
    (withJobsQuery [("child", "parent")] 2 ["child"]
        { jobs := { value := ["^child$"] }, others := [] }).jobs.value =
      ["^child$", "^parent$"] := by
  refine ⟨?_, by decide⟩
  intro env fuel matched args
  exact ⟨rfl, foldl_append_flatMap _ matched args.jobs.value⟩

end Cibyl
